import Mathlib

/-
Verification of the encoding-repair engine in src/meta_fixer.py.

Shallow embedding conventions:
- A Python `str` is a list of Unicode code points (`Text := List Nat`);
  a `bytes` value is likewise a list of byte values.
- A tag value (`audio[tag]`, possibly absent / None) is `Option Text`.
- Raising an exception that the caller does not catch is modelled by an
  `Option`-valued function returning `none`.
- The external collaborators (chardet's `detect`, Python's per-codec
  `bytes.decode`, mutagen's `EasyID3` container open) are parameters of the
  embedded functions: the source calls them but does not define them, so the
  theorems quantify over them (or instantiate them concretely in closed
  evaluations).
-/

namespace MetaFixer

abbrev Text := List Nat

/-- Result of `chardet.detect`: an encoding guess (None possible) and a
confidence score, modelled on the rationals. -/
structure Detected where
  encoding : Option String
  confidence : ℚ

/-- The `chardet.detect` collaborator. -/
abbrev Detector := Text → Detected

/-- The `bytes.decode(encoding)` collaborator: `none` models a
`UnicodeDecodeError` being raised. -/
abbrev Decoder := String → Text → Option Text

/-- The per-character test inside `MetaFixer._is_garbled`: Hiragana/Katakana
U+3040-U+30FF, CJK Unified Ideographs U+4E00-U+9FFF, Hangul syllables
U+AC00-U+D7A3. -/
def expectedScript (c : Nat) : Bool :=
  (0x3040 ≤ c && c ≤ 0x30ff) || (0x4e00 ≤ c && c ≤ 0x9fff) ||
    (0xac00 ≤ c && c ≤ 0xd7a3)

/-- `MetaFixer._is_garbled` (src/meta_fixer.py lines 20-37): literally
`any(... for c in text)` over the three script ranges. Note the source
returns True exactly when an expected-script character IS present. -/
def is_garbled (text : Text) : Bool :=
  text.any expectedScript

/-- `text.encode("latin1")`: succeeds (byte value = code point) iff every
code point is at most 255, otherwise raises `UnicodeEncodeError` (`none`). -/
def encode_latin1 (text : Text) : Option Text :=
  if text.all (fun c => c ≤ 255) then some text else none

/-- The fallback loop of `MetaFixer._fix_encoding` (lines 76-88): try each
candidate in order, return the first decode that does not raise. -/
def try_candidates (decode : Decoder) (raw : Text) : List String → Option Text
  | [] => none
  | c :: rest =>
    match decode c raw with
    | some s => some s
    | none => try_candidates decode raw rest

/-- The candidate encoding list of `MetaFixer._fix_encoding` (lines 76-82). -/
def candidates : List String :=
  ["cp949", "euc-kr", "shift_jis", "euc_jp", "iso2022_jp"]

/-- Lines 63-73 of `MetaFixer._fix_encoding`: consult chardet, and if the
guess is non-null with confidence above 0.8, attempt to decode with it;
a decode error falls through (`none`). -/
def confident_guess (detect : Detector) (decode : Decoder) (raw : Text) :
    Option Text :=
  match (detect raw).encoding with
  | some enc =>
    if (detect raw).confidence > 8 / 10 then decode enc raw else none
  | none => none

/-- `MetaFixer._fix_encoding` (lines 39-88). -/
def fix_encoding (detect : Detector) (decode : Decoder) (text : Text) :
    Option Text :=
  if text = [] then
    none
  else if is_garbled text = false then
    some text
  else
    match encode_latin1 text with
    | none => some text
    | some raw =>
      match confident_guess detect decode raw with
      | some fixed => some fixed
      | none => try_candidates decode raw candidates

/-- A garbled-classified string (per the source heuristic) contains a code
point of at least 0x3040, so its latin1 re-encoding always raises. -/
theorem garbled_latin1 (text : Text) (h : is_garbled text = true) :
    encode_latin1 text = none := by
  rw [is_garbled, List.any_eq_true] at h
  obtain ⟨c, hc, hsc⟩ := h
  rw [encode_latin1, if_neg]
  intro hall
  rw [List.all_eq_true] at hall
  have h1 := hall c hc
  rw [expectedScript] at hsc
  simp only [Bool.or_eq_true, Bool.and_eq_true, decide_eq_true_eq] at hsc
  simp only [decide_eq_true_eq] at h1
  omega

/-- On every input, `_fix_encoding` is the identity on non-empty strings and
`none` on the empty string, whatever the detector and decoders do. -/
theorem fix_encoding_identity (detect : Detector) (decode : Decoder)
    (text : Text) :
    fix_encoding detect decode text = if text = [] then none else some text := by
  by_cases he : text = []
  · simp [fix_encoding, he]
  · rw [if_neg he]
    cases hg : is_garbled text with
    | false => simp [fix_encoding, he, hg]
    | true => simp [fix_encoding, he, hg, garbled_latin1 text hg]

/-- Claim C1: the source computes the inverse of the specified classifier.
The Hangul string made of the single code point U+D55C is classified garbled
(= true) although it consists of an expected-script character, and the plain
ASCII string with code points of a, b, c is classified not garbled (= false)
although it contains no expected-script character. -/
theorem c1_is_garbled_inverted :
    is_garbled [0xd55c] = true ∧ is_garbled [0x61, 0x62, 0x63] = false := by
  constructor
  · decide
  · decide

/-- Claim C2: for every detector and decoder set, `_fix_encoding` returns the
input itself on every non-empty input and `none` exactly on the empty input:
garbled-classified inputs contain a code point above 255 so the latin1
re-encoding raises and the input is returned, and all other inputs are
returned by the not-garbled short circuit; the detection and fallback
branches never decide the result. -/
theorem c2_fix_encoding_is_identity (detect : Detector) (decode : Decoder)
    (text : Text) :
    fix_encoding detect decode text = if text = [] then none else some text :=
  fix_encoding_identity detect decode text

/-- Lines 169-175 pass each tag value of the extracted metadata (possibly
None) to `_fix_encoding`; Python's `if not text` guard maps None to None. -/
def fix_tag_value (detect : Detector) (decode : Decoder) :
    Option Text → Option Text
  | none => none
  | some t => fix_encoding detect decode t

/-- Tag-store events performed by `fix_extracted_metadata` on one file:
`write tag v` is the assignment `audio[tag] = fixed_val`, `save` is
`audio.save()`. -/
inductive Ev where
  | write (tag : String) (value : Option Text)
  | save
deriving DecidableEq

/-- The per-tag loop of `fix_extracted_metadata` (lines 169-175): for every
tag of the metadata dict, compute the repaired value, record it in the
`fixed` dict, and assign it into the tag store unconditionally. Returns the
`fixed` dict and the write events in loop order. -/
def fix_tags_loop (detect : Detector) (decode : Decoder) :
    List (String × Option Text) → List (String × Option Text) × List Ev
  | [] => ([], [])
  | (tag, value) :: rest =>
    let fixed_val := fix_tag_value detect decode value
    let r := fix_tags_loop detect decode rest
    ((tag, fixed_val) :: r.1, Ev.write tag fixed_val :: r.2)

/-- One file body of `fix_extracted_metadata` (lines 166-178): process every
tag, then `audio.save()` once. -/
def fix_file (detect : Detector) (decode : Decoder)
    (metadata : List (String × Option Text)) :
    List (String × Option Text) × List Ev :=
  let r := fix_tags_loop detect decode metadata
  (r.1, r.2 ++ [Ev.save])

/-- A detector with no guess, for closed evaluations. -/
def detect0 : Detector := fun _ => ⟨none, 0⟩

/-- A decoder that always raises, for closed evaluations. -/
def decode0 : Decoder := fun _ _ => none

/-- A file with a Hangul album tag (code point U+D55C) and an absent title
tag, as extracted by `get_original_metadata`. -/
def meta4 : List (String × Option Text) :=
  [("album", some [0xd55c]), ("title", none)]

/-- Claim C4: the repair pass writes every tag unconditionally. On a file
whose album tag repairs to a value identical to the original and whose title
tag is absent (repair result None), the loop still performs a write for both
tags: one with the unchanged value and one with None. -/
theorem c4_unconditional_write :
    (fix_file detect0 decode0 meta4).2 =
      [Ev.write "album" (some [0xd55c]), Ev.write "title" none, Ev.save] ∧
    (fix_file detect0 decode0 meta4).1 = meta4 := by
  constructor
  · rfl
  · rfl

/-- A file with a single Hangul artist tag. -/
def meta5 : List (String × Option Text) :=
  [("artist", some [0xd55c])]

/-- Claim C5: a second repair pass over the already-repaired metadata of
`meta5` still performs a tag-store write (and a save), not zero writes: the
write guard the claim describes does not exist in the source. -/
theorem c5_second_pass_writes :
    (fix_file detect0 decode0 (fix_file detect0 decode0 meta5).1).2 =
      [Ev.write "artist" (some [0xd55c]), Ev.save] := by
  rfl

/-- A detector that confidently reports euc-kr for every byte sequence. -/
def detect3 : Detector := fun _ => ⟨some "euc-kr", 99 / 100⟩

/-- A decoder under which euc-kr maps the byte pair 0xC7 0xD1 to the Hangul
syllable U+D55C (as the real euc-kr codec does). -/
def decode3 : Decoder := fun enc raw =>
  if enc = "euc-kr" ∧ raw = [0xc7, 0xd1] then some [0xd55c] else none

/-- Claim C3: the round trip fails. Corrupting the Hangul string U+D55C
through euc-kr bytes 0xC7 0xD1 read back as latin1 gives the two-character
string with code points 0xC7, 0xD1; `_fix_encoding` returns that corrupted
string unchanged instead of recovering U+D55C, even though euc-kr is both
the confident detector guess and a fallback candidate that decodes it. -/
theorem c3_roundtrip_fails :
    decode3 "euc-kr" [0xc7, 0xd1] = some [0xd55c] ∧
    detect3 [0xc7, 0xd1] = ⟨some "euc-kr", 99 / 100⟩ ∧
    fix_encoding detect3 decode3 [0xc7, 0xd1] = some [0xc7, 0xd1] ∧
    ([0xc7, 0xd1] : Text) ≠ [0xd55c] := by
  refine ⟨by decide, rfl, by rfl, by decide⟩

/-- Claim C10: on every file, the event trace of the repair pass is exactly
the per-tag writes in tag order followed by a single save: the save is the
last event, occurs exactly once, and no save separates individual writes. -/
theorem c10_single_save (detect : Detector) (decode : Decoder)
    (metadata : List (String × Option Text)) :
    (fix_file detect decode metadata).2 =
      metadata.map (fun p => Ev.write p.1 (fix_tag_value detect decode p.2)) ++
        [Ev.save] ∧
    Ev.save ∉
      metadata.map (fun p => Ev.write p.1 (fix_tag_value detect decode p.2)) := by
  constructor
  · rw [fix_file]
    induction metadata with
    | nil => rfl
    | cons p rest ih =>
      obtain ⟨tag, value⟩ := p
      simp only [fix_tags_loop, List.map_cons, List.cons_append] at *
      rw [← ih]
  · intro hmem
    rw [List.mem_map] at hmem
    obtain ⟨p, _, hp⟩ := hmem
    exact Ev.noConfusion hp

/-- The fallback loop returns the decoding of the candidate `c` whenever
every candidate listed before `c` raises and `c` decodes successfully. -/
theorem try_candidates_append (decode : Decoder) (raw : Text)
    (l1 : List String) (c : String) (l2 : List String) (s : Text)
    (h1 : ∀ e ∈ l1, decode e raw = none) (h2 : decode c raw = some s) :
    try_candidates decode raw (l1 ++ c :: l2) = some s := by
  induction l1 with
  | nil => simp [try_candidates, h2]
  | cons a t ih =>
    have ha : decode a raw = none := h1 a (by simp)
    rw [List.cons_append, try_candidates, ha]
    exact ih (fun e he => h1 e (by simp [he]))

/-- Claim C6: the fallback candidate list is exactly cp949, euc-kr,
shift_jis, euc_jp, iso2022_jp in that order, and for any byte sequence the
fallback stage returns the decoding of the earliest-listed candidate that
decodes without error, whatever later candidates would produce. -/
theorem c6_candidate_order (decode : Decoder) (raw : Text)
    (l1 l2 : List String) (c : String) (s : Text)
    (hsplit : candidates = l1 ++ c :: l2)
    (h1 : ∀ e ∈ l1, decode e raw = none)
    (h2 : decode c raw = some s) :
    candidates = ["cp949", "euc-kr", "shift_jis", "euc_jp", "iso2022_jp"] ∧
    try_candidates decode raw candidates = some s := by
  refine ⟨rfl, ?_⟩
  rw [hsplit]
  exact try_candidates_append decode raw l1 c l2 s h1 h2

/-- A decoder under which both shift_jis and euc_jp decode the byte 0xB1,
to different strings, while the Korean candidates raise. -/
def decode6 : Decoder := fun enc _ =>
  if enc = "shift_jis" then some [0x30a2]
  else if enc = "euc_jp" then some [0x30a4]
  else none

/-- Witness for C6: on the byte 0xB1, shift_jis and euc_jp both decode, and
the fallback stage returns the shift_jis result, the earlier of the two in
the candidate list. -/
theorem c6_candidate_order_witness :
    try_candidates decode6 [0xb1] candidates = some [0x30a2] :=
  (c6_candidate_order decode6 [0xb1] ["cp949", "euc-kr"]
    ["euc_jp", "iso2022_jp"] "shift_jis" [0x30a2]
    (by decide) (by decide) (by decide)).2

/-- The unrecoverable case of `_fix_encoding`, read off lines 53-88 of the
source: the input is classified garbled, its latin1 re-encoding succeeds,
the confident-guess step yields nothing, and every fallback candidate
raises. -/
def unrecoverable (detect : Detector) (decode : Decoder) (text : Text) :
    Prop :=
  is_garbled text = true ∧
  ∃ raw, encode_latin1 text = some raw ∧
    confident_guess detect decode raw = none ∧
    try_candidates decode raw candidates = none

/-- Claim C7: `_fix_encoding` returns None exactly when the input is empty
or is garbled-classified, latin1-reencodable, and neither the confident
detector guess nor any fallback candidate decodes the bytes; in every other
case the result is a non-null string. (On this source the second case is
never realized: a garbled-classified string is never latin1-reencodable.) -/
theorem c7_none_iff (detect : Detector) (decode : Decoder) (text : Text) :
    fix_encoding detect decode text = none ↔
      text = [] ∨ unrecoverable detect decode text := by
  rw [fix_encoding_identity]
  constructor
  · intro h
    by_cases he : text = []
    · exact Or.inl he
    · rw [if_neg he] at h
      exact absurd h (by simp)
  · intro h
    rcases h with he | hu
    · simp [he]
    · obtain ⟨hg, raw, hraw, _, _⟩ := hu
      rw [garbled_latin1 text hg] at hraw
      exact absurd hraw (by simp)

/-- Claim C8: a garbled-classified input holding a code point above 255
(so that the single-byte latin1 reinterpretation raises) is passed through
unchanged: no error, no null. -/
theorem c8_nonbyte_passthrough (detect : Detector) (decode : Decoder)
    (text : Text) (hg : is_garbled text = true) (hc : ∃ c ∈ text, 255 < c) :
    fix_encoding detect decode text = some text := by
  obtain ⟨c, hcmem, _⟩ := hc
  have hne : text ≠ [] := by
    intro he
    rw [he] at hcmem
    exact absurd hcmem (List.not_mem_nil c)
  rw [fix_encoding_identity, if_neg hne]

/-- Witness for C8: the single Hangul code point U+D55C = 54620 is
garbled-classified, exceeds 255, and is returned unchanged. -/
theorem c8_nonbyte_passthrough_witness :
    fix_encoding detect0 decode0 [0xd55c] = some [0xd55c] :=
  c8_nonbyte_passthrough detect0 decode0 [0xd55c] (by decide) (by decide)

/-- An opened `EasyID3` tag container: lookup of a tag's first frame value,
`none` when the tag is absent (the `key in audio` test on lines 129-132). -/
abbrev Audio := String → Option Text

/-- The `EasyID3(file_path)` constructor: `none` models the exception raised
on a file whose tag container cannot be opened. -/
abbrev OpenFn := String → Option Audio

/-- The tag vocabulary tuple of `_extract_metadata` (line 125). -/
def keys : List String :=
  ["album", "title", "artist", "genre"]

/-- `MetaFixer._extract_metadata` (lines 114-134): open the container (no
exception handling in the source, so a failed open propagates as `none`),
then read each vocabulary tag, absent tags as None. -/
def extract_metadata (openf : OpenFn) (file_path : String) :
    Option (List (String × Option Text)) :=
  match openf file_path with
  | none => none
  | some audio => some (keys.map (fun key => (key, audio key)))

/-- The loop of `get_original_metadata` (lines 145-151) over the enumerated
files: any exception from `_extract_metadata` aborts the whole pass. -/
def get_original_metadata (openf : OpenFn) :
    List String → Option (List (String × List (String × Option Text)))
  | [] => some []
  | file :: rest =>
    match extract_metadata openf file with
    | none => none
    | some f_meta =>
      match get_original_metadata openf rest with
      | none => none
      | some r => some ((file, f_meta) :: r)

/-- One CSV row of `output_results` (lines 208-221): the file path together
with the original columns and the fixed columns. -/
def build_row (f_path : String) (meta_og meta_fixed : List (String × Option Text)) :
    String × List (String × Option Text) :=
  (f_path, meta_og.map (fun p => (p.1 ++ "_og", p.2)) ++
    meta_fixed.map (fun p => (p.1 ++ "_fixed", p.2)))

/-- `MetaFixer.output_results` (lines 184-223): one row per entry of
`metadata_original`, joining in the `metadata_fixed` entry for the same
path. `self.metadata_fixed[f_path]` (line 215) is a plain dict access, so a
missing key raises KeyError, which nothing catches: the report pass aborts
(`none`). -/
def output_results
    (metadata_fixed : List (String × List (String × Option Text))) :
    List (String × List (String × Option Text)) →
      Option (List (String × List (String × Option Text)))
  | [] => some []
  | p :: rest =>
    match metadata_fixed.lookup p.1 with
    | none => none
    | some mf =>
      match output_results metadata_fixed rest with
      | none => none
      | some rows => some (build_row p.1 p.2 mf :: rows)

/-- A concrete file path for closed evaluations. -/
def fileA : String := "a.mp3"

/-- A second concrete file path for closed evaluations. -/
def fileB : String := "b.mp3"

/-- A container opener that succeeds on `fileA` (with every tag absent) and
fails on every other path. -/
def open9 : OpenFn := fun p =>
  if p = fileA then some (fun _ => none) else none

/-- Counterexample to C9: with two enumerated files of which the second has
no readable tag container, the metadata pass aborts with the propagated
exception; the batch does not continue and no report row (all-null or
otherwise) is produced for either file. -/
theorem c9_unsupported_aborts_batch :
    open9 fileB = none ∧
    get_original_metadata open9 [fileA, fileB] = none := by
  constructor
  · rfl
  · rfl

/-- Claim C9 as amended: when every enumerated file's tag container opens
and the fixed-metadata dict supplied to the report pass has an entry for
every enumerated file, the metadata pass succeeds with exactly one record
per file and the report succeeds with exactly one row per file. -/
theorem c9_row_per_readable_file (openf : OpenFn) (files : List String)
    (metadata_fixed : List (String × List (String × Option Text)))
    (hopen : ∀ f ∈ files, (openf f).isSome = true)
    (hfix : ∀ f ∈ files, (metadata_fixed.lookup f).isSome = true) :
    ∃ recs rows, get_original_metadata openf files = some recs ∧
      recs.map Prod.fst = files ∧
      output_results metadata_fixed recs = some rows ∧
      rows.map Prod.fst = files := by
  induction files with
  | nil => exact ⟨[], [], rfl, rfl, rfl, rfl⟩
  | cons f rest ih =>
    obtain ⟨audio, haudio⟩ :=
      Option.isSome_iff_exists.mp (hopen f (List.mem_cons_self f rest))
    obtain ⟨mf, hmf⟩ :=
      Option.isSome_iff_exists.mp (hfix f (List.mem_cons_self f rest))
    obtain ⟨recs, rows, hrecs, hrm, hrows, hrowm⟩ :=
      ih (fun x hx => hopen x (List.mem_cons_of_mem f hx))
        (fun x hx => hfix x (List.mem_cons_of_mem f hx))
    refine ⟨(f, keys.map (fun key => (key, audio key))) :: recs,
      build_row f (keys.map (fun key => (key, audio key))) mf :: rows,
      ?_, ?_, ?_, ?_⟩
    · rw [get_original_metadata, extract_metadata, haudio, hrecs]
    · rw [List.map_cons, hrm]
    · rw [output_results]
      show (match metadata_fixed.lookup f with
        | none => none
        | some mf =>
          match output_results metadata_fixed recs with
          | none => none
          | some rows => some (build_row f
              (keys.map (fun key => (key, audio key))) mf :: rows)) = _
      rw [hmf, hrows]
    · rw [List.map_cons, hrowm]
      rfl

/-- A container opener that succeeds on every path with every tag absent. -/
def openAll : OpenFn := fun _ => some (fun _ => none)

/-- Witness for the amended C9: a one-file batch whose container opens, with
a fixed-metadata dict holding an entry for that file, yields exactly one
record and one report row for it. -/
theorem c9_row_per_readable_file_witness :
    ∃ recs rows, get_original_metadata openAll [fileA] = some recs ∧
      recs.map Prod.fst = [fileA] ∧
      output_results [(fileA, [])] recs = some rows ∧
      rows.map Prod.fst = [fileA] :=
  c9_row_per_readable_file openAll [fileA] [(fileA, [])]
    (fun _ _ => rfl) (by decide)

end MetaFixer
